import Mathlib

/-!
Verification of the pseudoword program against its specification.

The shell interface (argument record, usage text, option parsing with POSIX
getopt, and the entry point) is embedded from src/pseudoword.cc.  The
generation core (n-gram model building and sampling) is absent from the
source tree; those definitions are modelled from the specification and are
marked as such in their doc comments.

Conventions of the embedding:
  - C++ `double` is modelled as ℚ.
  - Printing to a stream is modelled as appending to a list of output chunks.
  - A function that may throw returns `Except e a`; the error value carries
    the exception message together with the standard output emitted so far.
  - `std::stod` and `std::stoi` are taken as parameters (they are library
    functions, not part of this program); they may fail, as the C++
    functions may throw.
-/

/-- Mirrors `struct program_arguments` (src/pseudoword.cc lines 22-30),
with the default member initializers of the source. -/
structure program_arguments where
  compound_probability : ℚ := 0
  ngram_length : Int := 3
  number_of_words : Int := 10
  constrained_prefix : String := ""
  dictionary_filename : String := ""
  done : Bool := false
  deriving DecidableEq, Repr

/-- Mirrors `application_main` (lines 36-39): the body is `(void) args;`,
a stub.  Modelled as the list of output chunks it emits, which is empty;
it computes nothing and changes no state. -/
def application_main (_ : program_arguments) : List String := []

/-- The usage text printed by `show_usage` (lines 45-62). -/
def usage_message : String :=
  "usage: pseudoword [-cgnpwh] [DICT]\n\nGenerate random pseudowords.\n\nArgument:\n DICT       Sample words from this file (default: /usr/share/dict/words)\n\nOptions:\n -c PCOMP   Probability of forming compound word (default: 0)\n -g N       N of N-gram model (default: 3)\n -n NWORDS  Number of generated pseudowords (default: 10)\n -p PREFIX  Constrain generated pseudowords to start with this prefix\n -w WIDTH   Width of output at which lines should be wrapped\n -h         Print this message and exit\n"

/-- Mirrors `show_usage` (lines 45-62): printing the usage text to the
given stream, modelled as appending the text to the stream's chunk list. -/
def show_usage (out : List String) : List String := out ++ [usage_message]

/-- The option characters of the optstring ":c:g:n:p:w:h" (line 72) that
take an argument. -/
def optsWithArg : List Char := ['c', 'g', 'n', 'p', 'w']

/-- The option characters of the optstring ":c:g:n:p:w:h" that take no
argument. -/
def optsNoArg : List Char := ['h']

/-- The result of one `getopt` call, as seen by the switch in `parse_args`:
a recognized option character with its argument when it takes one
(`flag`), the `:` result for an option lacking its required argument
(`missing`), or the `?` result for an unrecognized option (`unknown`). -/
inductive OptEvent where
  | flag (c : Char) (arg : Option String)
  | missing (c : Char)
  | unknown (c : Char)
  deriving DecidableEq, Repr

/-- POSIX getopt scan of the option characters of a single argv element
(the part after the leading dash).  `nextArg` is the following argv
element, if any, available to satisfy a trailing option that requires an
argument.  Returns the produced events and whether `nextArg` was consumed. -/
def scanChars : List Char → Option String → List OptEvent × Bool
  | [], _ => ([], false)
  | c :: cs, nextArg =>
    if c ∈ optsWithArg then
      match cs with
      | [] =>
        match nextArg with
        | none => ([OptEvent.missing c], false)
        | some a => ([OptEvent.flag c (some a)], true)
      | _ :: _ => ([OptEvent.flag c (some (String.mk cs))], false)
    else if c ∈ optsNoArg then
      let r := scanChars cs nextArg
      (OptEvent.flag c none :: r.1, r.2)
    else
      let r := scanChars cs nextArg
      (OptEvent.unknown c :: r.1, r.2)

/-- POSIX getopt scan over argv, fuelled for structural recursion (the
fuel is instantiated with the length of argv, which suffices because each
step consumes at least the head element).  The scan stops at `--`, at a
lone `-`, and at the first non-option argument. -/
def getoptGo : Nat → List String → List OptEvent
  | 0, _ => []
  | _, [] => []
  | fuel + 1, s :: rest =>
    match s.data with
    | '-' :: c :: cs =>
      if c = '-' ∧ cs = [] then []
      else
        let r := scanChars (c :: cs) rest.head?
        r.1 ++ getoptGo fuel (if r.2 then rest.drop 1 else rest)
    | _ => []

/-- The sequence of getopt results for an argument vector (argv without
the program name), per the optstring ":c:g:n:p:w:h" of line 72. -/
def getoptEvents (argv : List String) : List OptEvent := getoptGo argv.length argv

/-- One iteration of the switch statement in `parse_args` (lines 74-109).
`stod` and `stoi` model `std::stod` and `std::stoi`.  The final `flag`
branch is unreachable for events produced by `getoptEvents` (the source
has `assert(false)` there). -/
def applyOpt (stod : String → Except String ℚ) (stoi : String → Except String Int)
    (a : program_arguments) (out : List String) :
    OptEvent → Except (String × List String) (program_arguments × List String)
  | OptEvent.flag c arg =>
    if c = 'c' then
      match stod (arg.getD "") with
      | Except.error e => Except.error (e, out)
      | Except.ok v => Except.ok ({a with compound_probability := v}, out)
    else if c = 'g' then
      match stoi (arg.getD "") with
      | Except.error e => Except.error (e, out)
      | Except.ok v => Except.ok ({a with ngram_length := v}, out)
    else if c = 'n' then
      match stoi (arg.getD "") with
      | Except.error e => Except.error (e, out)
      | Except.ok v => Except.ok ({a with number_of_words := v}, out)
    else if c = 'p' then
      Except.ok ({a with constrained_prefix := arg.getD ""}, out)
    else if c = 'w' then
      Except.ok ({a with dictionary_filename := arg.getD ""}, out)
    else if c = 'h' then
      Except.ok ({a with done := true}, show_usage out)
    else
      Except.ok (a, out)
  | OptEvent.missing _ => Except.error ("missing argument", out)
  | OptEvent.unknown _ => Except.error ("unknown option", out)

/-- The option-processing loop of `parse_args` (lines 72-110), folding the
switch over the getopt results with early exit on a thrown exception. -/
def parseEvents (stod : String → Except String ℚ) (stoi : String → Except String Int) :
    program_arguments → List String → List OptEvent →
    Except (String × List String) (program_arguments × List String)
  | a, out, [] => Except.ok (a, out)
  | a, out, ev :: evs =>
    match applyOpt stod stoi a out ev with
    | Except.error e => Except.error e
    | Except.ok r => parseEvents stod stoi r.1 r.2 evs

/-- Mirrors `parse_args` (lines 68-113): starts from the default
`program_arguments` and processes every getopt result.  The result also
carries the standard output emitted while parsing (by `-h`). -/
def parse_args (stod : String → Except String ℚ) (stoi : String → Except String Int)
    (argv : List String) :
    Except (String × List String) (program_arguments × List String) :=
  parseEvents stod stoi {} [] (getoptEvents argv)

/-- The observable outcome of one program run: exit code, standard output
chunks, standard error chunks, and whether `application_main` was invoked. -/
structure exec_result where
  exit_code : Int
  out_chunks : List String
  err_chunks : List String
  called_application_main : Bool
  deriving DecidableEq, Repr

def EXIT_SUCCESS : Int := 0

def EXIT_FAILURE : Int := 1

/-- Mirrors `main` (lines 119-132): parse the arguments; on an exception
print `error: <message>` to standard error and return `EXIT_FAILURE`;
otherwise run `application_main` unless `done` is set.  Falling off the
end of C++ `main` returns 0. -/
def main_run (stod : String → Except String ℚ) (stoi : String → Except String Int)
    (argv : List String) : exec_result :=
  match parse_args stod stoi argv with
  | Except.error e =>
    { exit_code := EXIT_FAILURE, out_chunks := e.2,
      err_chunks := ["error: " ++ e.1], called_application_main := false }
  | Except.ok r =>
    if r.1.done then
      { exit_code := EXIT_SUCCESS, out_chunks := r.2, err_chunks := [],
        called_application_main := false }
    else
      { exit_code := EXIT_SUCCESS, out_chunks := r.2 ++ application_main r.1,
        err_chunks := [], called_application_main := true }

/-- C1: for every value of `program_arguments`, `application_main` returns
without performing any computation, producing any output, or modifying any
state: its emitted output is empty, and it is a stub with no logic. -/
theorem application_main_is_stub : ∀ args, application_main args = [] :=
  fun _ => rfl

/-- C2: the argument of the `-w` option is stored into the
`dictionary_filename` field of `program_arguments` (there is no wrap-width
field), while the argument of the `-p` option is stored into the
`constrained_prefix` field.  Stated both for a single switch iteration
from any intermediate state and for a full parse of `-w ARG` / `-p ARG`. -/
theorem w_and_p_option_wiring :
    ∀ stod stoi s a out,
      applyOpt stod stoi a out (OptEvent.flag 'w' (some s)) =
        Except.ok ({a with dictionary_filename := s}, out) ∧
      applyOpt stod stoi a out (OptEvent.flag 'p' (some s)) =
        Except.ok ({a with constrained_prefix := s}, out) ∧
      parse_args stod stoi ["-w", s] =
        Except.ok (({ dictionary_filename := s } : program_arguments), []) ∧
      parse_args stod stoi ["-p", s] =
        Except.ok (({ constrained_prefix := s } : program_arguments), []) :=
  fun _ _ _ _ _ => ⟨rfl, rfl, rfl, rfl⟩

/-- C3: when no command-line options are given (the getopt scan produces no
results), the parsed parameters are exactly the defaults of the argument
record: compound probability 0, n-gram order 3, word count 10, and empty
prefix constraint. -/
theorem default_arguments :
    (∀ stod stoi argv, getoptEvents argv = [] →
      parse_args stod stoi argv = Except.ok (({} : program_arguments), [])) ∧
    ({} : program_arguments) =
      { compound_probability := 0, ngram_length := 3, number_of_words := 10,
        constrained_prefix := "", dictionary_filename := "", done := false } := by
  constructor
  · intro stod stoi argv h
    unfold parse_args
    rw [h]
    rfl
  · rfl

/-- Witness for C3 at the empty argument vector. -/
theorem default_arguments_witness :
    getoptEvents [] = [] ∧
    parse_args (fun _ => Except.ok 0) (fun _ => Except.ok 0) [] =
      Except.ok (({} : program_arguments), []) :=
  ⟨rfl, default_arguments.1 (fun _ => Except.ok 0) (fun _ => Except.ok 0) [] rfl⟩

/-- Sample numeric parser used by concrete runs in witnesses. -/
def demoStod : String → Except String ℚ := fun _ => Except.ok 0

/-- Sample numeric parser used by concrete runs in witnesses. -/
def demoStoi : String → Except String Int := fun _ => Except.ok 0

/-- A single switch iteration keeps `done` set and keeps every chunk
already printed to standard output. -/
theorem applyOpt_mono (stod : String → Except String ℚ)
    (stoi : String → Except String Int) (a : program_arguments)
    (out : List String) (ev : OptEvent) (a1 : program_arguments)
    (out1 : List String)
    (h : applyOpt stod stoi a out ev = Except.ok (a1, out1)) :
    (a.done = true → a1.done = true) ∧ (∀ x, x ∈ out → x ∈ out1) := by
  cases ev with
  | missing c => simp [applyOpt] at h
  | unknown c => simp [applyOpt] at h
  | flag c arg =>
    simp only [applyOpt] at h
    split_ifs at h
    · cases hs : stod (arg.getD "") <;> rw [hs] at h
      · exact absurd h (by simp)
      · simp only [Except.ok.injEq, Prod.mk.injEq] at h
        obtain ⟨rfl, rfl⟩ := h
        exact ⟨fun hd => hd, fun x hx => hx⟩
    · cases hs : stoi (arg.getD "") <;> rw [hs] at h
      · exact absurd h (by simp)
      · simp only [Except.ok.injEq, Prod.mk.injEq] at h
        obtain ⟨rfl, rfl⟩ := h
        exact ⟨fun hd => hd, fun x hx => hx⟩
    · cases hs : stoi (arg.getD "") <;> rw [hs] at h
      · exact absurd h (by simp)
      · simp only [Except.ok.injEq, Prod.mk.injEq] at h
        obtain ⟨rfl, rfl⟩ := h
        exact ⟨fun hd => hd, fun x hx => hx⟩
    · simp only [Except.ok.injEq, Prod.mk.injEq] at h
      obtain ⟨rfl, rfl⟩ := h
      exact ⟨fun hd => hd, fun x hx => hx⟩
    · simp only [Except.ok.injEq, Prod.mk.injEq] at h
      obtain ⟨rfl, rfl⟩ := h
      exact ⟨fun hd => hd, fun x hx => hx⟩
    · simp only [Except.ok.injEq, Prod.mk.injEq] at h
      obtain ⟨rfl, rfl⟩ := h
      exact ⟨fun _ => rfl, fun x hx => by simp [show_usage, hx]⟩
    · simp only [Except.ok.injEq, Prod.mk.injEq] at h
      obtain ⟨rfl, rfl⟩ := h
      exact ⟨fun hd => hd, fun x hx => hx⟩

/-- The parse loop keeps `done` set and keeps every chunk already printed. -/
theorem parseEvents_mono (stod : String → Except String ℚ)
    (stoi : String → Except String Int) :
    ∀ (evs : List OptEvent) (a : program_arguments) (out : List String)
      (a2 : program_arguments) (out2 : List String),
      parseEvents stod stoi a out evs = Except.ok (a2, out2) →
      (a.done = true → a2.done = true) ∧ (∀ x, x ∈ out → x ∈ out2) := by
  intro evs
  induction evs with
  | nil =>
    intro a out a2 out2 h
    simp only [parseEvents, Except.ok.injEq, Prod.mk.injEq] at h
    obtain ⟨rfl, rfl⟩ := h
    exact ⟨fun hd => hd, fun x hx => hx⟩
  | cons ev evs ih =>
    intro a out a2 out2 h
    simp only [parseEvents] at h
    cases hap : applyOpt stod stoi a out ev <;> rw [hap] at h
    · exact absurd h (by simp)
    · case ok r =>
      obtain ⟨h1, h2⟩ := applyOpt_mono stod stoi a out ev r.1 r.2 (by rw [hap])
      obtain ⟨h3, h4⟩ := ih r.1 r.2 a2 out2 h
      exact ⟨fun hd => h3 (h1 hd), fun x hx => h4 x (h2 x hx)⟩

/-- If the parse loop succeeds having processed an `-h` result, the final
arguments have `done` set and the usage text has been printed. -/
theorem parseEvents_help (stod : String → Except String ℚ)
    (stoi : String → Except String Int) :
    ∀ (evs : List OptEvent) (a : program_arguments) (out : List String)
      (a2 : program_arguments) (out2 : List String),
      parseEvents stod stoi a out evs = Except.ok (a2, out2) →
      OptEvent.flag 'h' none ∈ evs →
      a2.done = true ∧ usage_message ∈ out2 := by
  intro evs
  induction evs with
  | nil => intro a out a2 out2 _ hmem; exact absurd hmem (by simp)
  | cons ev evs ih =>
    intro a out a2 out2 h hmem
    simp only [parseEvents] at h
    rcases List.mem_cons.mp hmem with hev | hev
    · subst hev
      have hap : applyOpt stod stoi a out (OptEvent.flag 'h' none) =
          Except.ok ({a with done := true}, show_usage out) := rfl
      rw [hap] at h
      obtain ⟨h1, h2⟩ := parseEvents_mono stod stoi evs _ _ a2 out2 h
      exact ⟨h1 rfl, h2 usage_message (by simp [show_usage])⟩
    · cases hap : applyOpt stod stoi a out ev <;> rw [hap] at h
      · exact absurd h (by simp)
      · case ok r => exact ih r.1 r.2 a2 out2 h hev

/-- C9: `parse_args` fails with message "missing argument" when an option
requiring an argument has none (getopt result `:`), and with "unknown
option" for an unrecognized option (getopt result `?`), from any state of
the option loop; for a single-option argument vector this holds for every
option character; and for every argument vector on which `parse_args`
fails, `main` prints `error: <message>` to standard error and returns
EXIT_FAILURE without invoking `application_main`. -/
theorem option_errors_reported :
    (∀ stod stoi a out c evs,
      parseEvents stod stoi a out (OptEvent.missing c :: evs) =
        Except.error ("missing argument", out)) ∧
    (∀ stod stoi a out c evs,
      parseEvents stod stoi a out (OptEvent.unknown c :: evs) =
        Except.error ("unknown option", out)) ∧
    (∀ c, c ∈ optsWithArg → ∀ stod stoi,
      parse_args stod stoi [String.mk ['-', c]] =
        Except.error ("missing argument", [])) ∧
    (∀ c, c ∉ optsWithArg → c ∉ optsNoArg → c ≠ '-' → ∀ stod stoi,
      parse_args stod stoi [String.mk ['-', c]] =
        Except.error ("unknown option", [])) ∧
    (∀ stod stoi argv msg out,
      parse_args stod stoi argv = Except.error (msg, out) →
      main_run stod stoi argv =
        { exit_code := EXIT_FAILURE, out_chunks := out,
          err_chunks := ["error: " ++ msg], called_application_main := false }) := by
  refine ⟨fun _ _ _ _ _ _ => rfl, fun _ _ _ _ _ _ => rfl, ?_, ?_, ?_⟩
  · intro c hc stod stoi
    fin_cases hc <;> rfl
  · intro c h1 h2 h3 stod stoi
    simp only [parse_args, getoptEvents, List.length_cons, List.length_nil, getoptGo]
    rw [if_neg (by simp [h3])]
    simp only [scanChars, if_neg h1, if_neg h2, List.head?]
    rfl
  · intro stod stoi argv msg out h
    simp [main_run, h]

/-- Witness for C9: a concrete run for a missing argument (`-p` with no
argument), one for an unknown option (`-x`), and the `main` outcome on the
latter. -/
theorem option_errors_reported_witness :
    ('p' ∈ optsWithArg ∧
      parse_args demoStod demoStoi [String.mk ['-', 'p']] =
        Except.error ("missing argument", [])) ∧
    ('x' ∉ optsWithArg ∧ 'x' ∉ optsNoArg ∧ 'x' ≠ '-' ∧
      parse_args demoStod demoStoi [String.mk ['-', 'x']] =
        Except.error ("unknown option", [])) ∧
    main_run demoStod demoStoi [String.mk ['-', 'x']] =
      { exit_code := EXIT_FAILURE, out_chunks := [],
        err_chunks := ["error: " ++ "unknown option"],
        called_application_main := false } :=
  ⟨⟨by decide, option_errors_reported.2.2.1 'p' (by decide) demoStod demoStoi⟩,
   ⟨by decide, by decide, by decide,
     option_errors_reported.2.2.2.1 'x' (by decide) (by decide) (by decide)
       demoStod demoStoi⟩,
   option_errors_reported.2.2.2.2 demoStod demoStoi [String.mk ['-', 'x']]
     "unknown option" [] rfl⟩

/-- C10: if the `-h` option is among the parsed options and the parse
succeeds, the parsed arguments have `done` set to true and the usage text
has been printed to standard output, and `main` then returns successfully
without invoking `application_main`. -/
theorem help_option_behavior :
    ∀ stod stoi argv args out,
      parse_args stod stoi argv = Except.ok (args, out) →
      OptEvent.flag 'h' none ∈ getoptEvents argv →
      args.done = true ∧ usage_message ∈ out ∧
      main_run stod stoi argv =
        { exit_code := EXIT_SUCCESS, out_chunks := out, err_chunks := [],
          called_application_main := false } := by
  intro stod stoi argv args out h hmem
  obtain ⟨hdone, husage⟩ :=
    parseEvents_help stod stoi (getoptEvents argv) {} [] args out h hmem
  refine ⟨hdone, husage, ?_⟩
  simp [main_run, h, hdone]

/-- The arguments produced by a successful parse of `-h` alone. -/
def demoHelpArgs : program_arguments := { done := true }

/-- Witness for C10 at the argument vector `-h`. -/
theorem help_option_behavior_witness :
    parse_args demoStod demoStoi ["-h"] =
      Except.ok (demoHelpArgs, [usage_message]) ∧
    OptEvent.flag 'h' none ∈ getoptEvents ["-h"] ∧
    (demoHelpArgs.done = true ∧ usage_message ∈ [usage_message] ∧
      main_run demoStod demoStoi ["-h"] =
        { exit_code := EXIT_SUCCESS, out_chunks := [usage_message],
          err_chunks := [], called_application_main := false }) :=
  ⟨rfl, by decide,
    help_option_behavior demoStod demoStoi ["-h"] demoHelpArgs [usage_message]
      rfl (by decide)⟩

/-!
The generation core.  None of it exists in the source tree (the source is
a stub); every definition below is modelled from the specification, as its
doc comment states.
-/

/-- Modelled from the spec: the symbol alphabet of the model — corpus
characters plus the two reserved boundary symbols.  `start` is the START
boundary symbol and `stop` is the END boundary symbol; both are distinct
from every corpus character by construction.  (The core's data model is
missing from the source.) -/
inductive Symb where
  | start : Symb
  | stop : Symb
  | char (c : Char) : Symb
  deriving DecidableEq, Repr

/-- Modelled from the spec: a Distribution, mapping next-symbols to
occurrence counts, kept as an ordered association list so that a weighted
draw can walk a cumulative-count line. -/
abbrev Freqs := List (Symb × Nat)

/-- Modelled from the spec: the context table of an NGramModel, mapping
each observed Context to its Distribution. -/
abbrev CtxTable := List (List Symb × Freqs)

/-- Modelled from the spec: the totalCount count of a Distribution. -/
def totalCount (d : Freqs) : Nat := (d.map Prod.snd).sum

/-- Modelled from the spec: increment the count of a symbol in a
Distribution, inserting it with count 1 when absent. -/
def incr : Freqs → Symb → Freqs
  | [], s => [(s, 1)]
  | (t, n) :: rest, s =>
    if t = s then (t, n + 1) :: rest else (t, n) :: incr rest s

/-- Modelled from the spec: look up the Distribution recorded for a
Context (absence means the context was never observed). -/
def findDist : CtxTable → List Symb → Option Freqs
  | [], _ => none
  | (k, d) :: rest, ctx => if k = ctx then some d else findDist rest ctx

/-- Modelled from the spec: record one observation — increment a symbol's
count in the Distribution of a Context, creating the entry when absent. -/
def bump : CtxTable → List Symb → Symb → CtxTable
  | [], ctx, s => [(ctx, [(s, 1)])]
  | (k, d) :: rest, ctx, s =>
    if k = ctx then (k, incr d s) :: rest else (k, d) :: bump rest ctx s

/-- Modelled from the spec: slide the fixed-size context window — append
the newly drawn symbol and drop the oldest so that at most `k` symbols
remain. -/
def push (k : Nat) (ctx : List Symb) (s : Symb) : List Symb :=
  (ctx ++ [s]).drop (ctx.length + 1 - k)

/-- Modelled from the spec (§4.1): record, for one corpus word, every
position's (context, next symbol) pair, including the final END
observation; `k` is `order - 1` and `ctx` starts as all-START padding. -/
def trainWord (k : Nat) : CtxTable → List Symb → List Char → CtxTable
  | tbl, ctx, [] => bump tbl ctx Symb.stop
  | tbl, ctx, c :: cs =>
    trainWord k (bump tbl ctx (Symb.char c)) (push k ctx (Symb.char c)) cs

/-- Modelled from the spec (§7): the error taxonomy of the core. -/
inductive CoreErr where
  | configError
  | emptyCorpusError
  | samplingError
  deriving DecidableEq, Repr

/-- Modelled from the spec (§3): an n-gram model — the configured order
and the table from contexts to distributions. -/
structure NGramModel where
  order : Nat
  table : CtxTable
  deriving DecidableEq, Repr

/-- Modelled from the spec (§4.1, §6): `BuildModel` — reject `order < 1`
as a ConfigError before any corpus scan, reject an empty corpus, and
otherwise fold the training pass over every corpus word. -/
def BuildModel (corpus : List (List Char)) (order : Int) :
    Except CoreErr NGramModel :=
  if order < 1 then Except.error CoreErr.configError
  else if corpus.isEmpty then Except.error CoreErr.emptyCorpusError
  else
    Except.ok
      { order := order.toNat,
        table := corpus.foldl
          (fun tbl w =>
            trainWord (order.toNat - 1) tbl
              (List.replicate (order.toNat - 1) Symb.start) w) [] }

/-- Modelled from the spec (§5): an injectable seedable random source — a
stream of naturals with a current position; each draw reads the stream at
the position and advances it. -/
structure Rng where
  stream : Nat → Nat
  pos : Nat

/-- Modelled from the spec: one uniform draw from the random source. -/
def Rng.next (r : Rng) : Nat × Rng :=
  (r.stream r.pos, { stream := r.stream, pos := r.pos + 1 })

/-- Modelled from the spec (§9): weighted random choice over a frequency
table — walk the cumulative-count line with a uniform draw in
`[0, totalCount)`; the final entry absorbs any remainder. -/
def pick : Freqs → Nat → Symb
  | [], _ => Symb.stop
  | [(s, _)], _ => s
  | (s, n) :: e :: rest, u => if u < n then s else pick (e :: rest) (u - n)

/-- Modelled from the spec (§4.2): backoff — progressively shorten the
context from the front until a recorded Distribution is found; `none`
only when even the empty context is unrecorded (empty model). -/
def backoffDist (tbl : CtxTable) : List Symb → Option Freqs
  | [] => findDist tbl []
  | s :: rest =>
    match findDist tbl (s :: rest) with
    | some d => some d
    | none => backoffDist tbl rest

/-- Modelled from the spec (§4.2): the sampling loop — resolve the
current context's Distribution (with backoff), make one weighted draw,
stop on END, otherwise append the drawn symbol and slide the window.  The
fuel is the safety length bound; exhausting it is a failed draw, and an
unresolvable context (empty model) is a SamplingError. -/
def sampleLoop (tbl : CtxTable) (k : Nat) :
    Nat → List Symb → List Symb → Rng → Except CoreErr (List Symb × Rng)
  | 0, _, _, _ => Except.error CoreErr.samplingError
  | fuel + 1, ctx, acc, r =>
    match backoffDist tbl ctx with
    | none => Except.error CoreErr.samplingError
    | some d =>
      let dr := Rng.next r
      let s := pick d (dr.1 % totalCount d)
      if s = Symb.stop then Except.ok (acc, dr.2)
      else sampleLoop tbl k fuel (push k ctx s) (acc ++ [s]) dr.2

/-- Modelled from the spec (§4.2): the safety maximum word length, a
fixed large constant. -/
def maxWordLen : Nat := 1000

/-- Modelled from the spec (§4.2, §6): `GenerateOne` — pre-seed the
output buffer with the literal required prefix (verbatim, never
re-validated against the model), build the initial context from the last
`order - 1` prefix characters left-padded with START, then run the
sampling loop. -/
def GenerateOne (m : NGramModel) (pre : List Char) (r : Rng) :
    Except CoreErr (List Symb × Rng) :=
  let k := m.order - 1
  let ctx0 := List.replicate k Symb.start ++ pre.map Symb.char
  sampleLoop m.table k maxWordLen (ctx0.drop (ctx0.length - k))
    (pre.map Symb.char) r

/-- Modelled from the spec: the denominator scaling one uniform natural
draw into a rational in `[0, 1)` for the compound coin flip. -/
def randDenom : Nat := 1000000

/-- Modelled from the spec (§4.3, §6): `GenerateCompound` — reject a
compound probability outside `[0, 1]` as a ConfigError before any draw;
sample one word; for `p = 0` return it with no further RNG consumption
(the spec requires no consumption difference against `GenerateOne`);
otherwise flip a `p`-weighted coin and, on success, sample a second word
(without the prefix) and concatenate the two. -/
def GenerateCompound (m : NGramModel) (pre : List Char) (p : ℚ) (r : Rng) :
    Except CoreErr (List Symb × Rng) :=
  if p < 0 ∨ 1 < p then Except.error CoreErr.configError
  else
    match GenerateOne m pre r with
    | Except.error e => Except.error e
    | Except.ok w1 =>
      if p = 0 then Except.ok w1
      else
        let dr := Rng.next w1.2
        if ((dr.1 % randDenom : ℚ) / (randDenom : ℚ)) < p then
          match GenerateOne m [] dr.2 with
          | Except.error e => Except.error e
          | Except.ok w2 => Except.ok (w1.1 ++ w2.1, w2.2)
        else Except.ok (w1.1, dr.2)

/-- Modelled from the spec (§4.4): the generation driver loop — invoke
`GenerateCompound` once per requested word; the last component of the
result counts those invocations. -/
def GenerateManyAux (m : NGramModel) (pre : List Char) (p : ℚ) :
    Nat → Rng → Except CoreErr (List (List Symb) × Rng × Nat)
  | 0, r => Except.ok ([], r, 0)
  | n + 1, r =>
    match GenerateCompound m pre p r with
    | Except.error e => Except.error e
    | Except.ok w =>
      match GenerateManyAux m pre p n w.2 with
      | Except.error e => Except.error e
      | Except.ok rest => Except.ok (w.1 :: rest.1, rest.2.1, rest.2.2 + 1)

/-- Modelled from the spec (§4.4, §6, §7): `GenerateMany` — reject a
negative word count as a ConfigError, otherwise produce exactly `count`
words in generation order. -/
def GenerateMany (m : NGramModel) (pre : List Char) (p : ℚ) (count : Int)
    (r : Rng) : Except CoreErr (List (List Symb) × Rng × Nat) :=
  if count < 0 then Except.error CoreErr.configError
  else GenerateManyAux m pre p count.toNat r

/-- A random stream used by concrete runs in witnesses. -/
def demoStream : Nat → Nat := fun _ => 0

/-- A random source used by concrete runs in witnesses. -/
def demoRng : Rng := { stream := demoStream, pos := 0 }

/-- The model `BuildModel` produces from the corpus `["ab"]` with order 2;
used by concrete runs in witnesses. -/
def demoModel : NGramModel :=
  { order := 2,
    table := [([Symb.start], [(Symb.char 'a', 1)]),
              ([Symb.char 'a'], [(Symb.char 'b', 1)]),
              ([Symb.char 'b'], [(Symb.stop, 1)])] }

/-- C7: for compound probability 0, `GenerateCompound` makes exactly the
same random draws and returns exactly the same result as `GenerateOne` on
the same stream — the results, including the final random-source state,
are equal — and in particular never invokes a second sampling. -/
theorem compound_zero_matches_single :
    ∀ m pre r, GenerateCompound m pre 0 r = GenerateOne m pre r := by
  intro m pre r
  unfold GenerateCompound
  rw [if_neg (by norm_num)]
  cases h : GenerateOne m pre r with
  | error e => rfl
  | ok w => simp

/-- The driver loop produces exactly as many words as requested and
invokes the composer exactly that many times. -/
theorem generateManyAux_spec (m : NGramModel) (pre : List Char) (p : ℚ) :
    ∀ (n : Nat) (r : Rng) (ws : List (List Symb)) (r2 : Rng) (k : Nat),
      GenerateManyAux m pre p n r = Except.ok (ws, r2, k) →
      ws.length = n ∧ k = n := by
  intro n
  induction n with
  | zero =>
    intro r ws r2 k h
    simp only [GenerateManyAux, Except.ok.injEq, Prod.mk.injEq] at h
    obtain ⟨rfl, rfl, rfl⟩ := h
    exact ⟨rfl, rfl⟩
  | succ n ih =>
    intro r ws r2 k h
    simp only [GenerateManyAux] at h
    split at h
    · exact absurd h (by simp)
    next w heq =>
      split at h
      · exact absurd h (by simp)
      next rest heq2 =>
        simp only [Except.ok.injEq, Prod.mk.injEq] at h
        obtain ⟨rfl, rfl, rfl⟩ := h
        obtain ⟨hl, hk⟩ := ih w.2 rest.1 rest.2.1 rest.2.2 (by rw [heq2])
        constructor
        · simp [hl]
        · omega

/-- C4: for every target count N ≥ 0, a successful `GenerateMany` run
returns exactly N results and has invoked `GenerateCompound` exactly N
times (the invocation counter of the driver); for count 0 the result is
the empty sequence with the random source returned untouched, and it is
the same for every model (no model access). -/
theorem generate_many_count :
    ∀ m pre p count r,
      (∀ ws r2 k, GenerateMany m pre p count r = Except.ok (ws, r2, k) →
        ws.length = count.toNat ∧ k = count.toNat) ∧
      GenerateMany m pre p 0 r = Except.ok ([], r, 0) ∧
      (∀ m2, GenerateMany m2 pre p 0 r = GenerateMany m pre p 0 r) := by
  intro m pre p count r
  refine ⟨?_, rfl, fun m2 => rfl⟩
  intro ws r2 k h
  unfold GenerateMany at h
  split_ifs at h with hc
  exact generateManyAux_spec m pre p count.toNat r ws r2 k h

/-- Witness for C4: a run of two words against the demo model, and the
count-zero run. -/
theorem generate_many_count_witness :
    (GenerateMany demoModel [] 0 2 demoRng =
      Except.ok ([[Symb.char 'a', Symb.char 'b'], [Symb.char 'a', Symb.char 'b']],
        { stream := demoStream, pos := 6 }, 2) ∧
      ([[Symb.char 'a', Symb.char 'b'], [Symb.char 'a', Symb.char 'b']].length =
        (2 : Int).toNat ∧ 2 = (2 : Int).toNat)) ∧
    GenerateMany demoModel [] 0 0 demoRng = Except.ok ([], demoRng, 0) :=
  ⟨⟨rfl, (generate_many_count demoModel [] 0 2 demoRng).1
      [[Symb.char 'a', Symb.char 'b'], [Symb.char 'a', Symb.char 'b']]
      { stream := demoStream, pos := 6 } 2 rfl⟩,
    (generate_many_count demoModel [] 0 0 demoRng).2.1⟩

/-- C8: an order below 1 is rejected by `BuildModel` as a ConfigError
whatever the corpus (so before any corpus scan), a compound probability
outside [0, 1] is rejected by `GenerateCompound` whatever the model and
random source (so before any draw), and a negative word count is rejected
by `GenerateMany` likewise; each rejection is the final result, with no
internal retry. -/
theorem config_errors_rejected :
    (∀ corpus order, order < 1 →
      BuildModel corpus order = Except.error CoreErr.configError) ∧
    (∀ m pre p r, (p < 0 ∨ 1 < p) →
      GenerateCompound m pre p r = Except.error CoreErr.configError) ∧
    (∀ m pre p count r, count < 0 →
      GenerateMany m pre p count r = Except.error CoreErr.configError) := by
  refine ⟨?_, ?_, ?_⟩
  · intro corpus order h
    unfold BuildModel
    rw [if_pos h]
  · intro m pre p r h
    unfold GenerateCompound
    rw [if_pos h]
  · intro m pre p count r h
    unfold GenerateMany
    rw [if_pos h]

/-- Witness for C8 at order 0, probability 2, and count -1. -/
theorem config_errors_rejected_witness :
    ((0 : Int) < 1 ∧ BuildModel [['a']] 0 = Except.error CoreErr.configError) ∧
    (((2 : ℚ) < 0 ∨ (1 : ℚ) < 2) ∧
      GenerateCompound demoModel [] 2 demoRng = Except.error CoreErr.configError) ∧
    ((-1 : Int) < 0 ∧
      GenerateMany demoModel [] 0 (-1) demoRng = Except.error CoreErr.configError) :=
  ⟨⟨by norm_num, config_errors_rejected.1 [['a']] 0 (by norm_num)⟩,
   ⟨Or.inr (by norm_num),
     config_errors_rejected.2.1 demoModel [] 2 demoRng (Or.inr (by norm_num))⟩,
   ⟨by norm_num, config_errors_rejected.2.2 demoModel [] 0 (-1) demoRng (by norm_num)⟩⟩

/-- The sampling loop only ever appends to the output buffer, so the
buffer it starts from is a prefix of every word it returns. -/
theorem sampleLoop_keeps_acc (tbl : CtxTable) (k : Nat) :
    ∀ (fuel : Nat) (ctx acc : List Symb) (r : Rng) (w : List Symb) (r2 : Rng),
      sampleLoop tbl k fuel ctx acc r = Except.ok (w, r2) →
      List.IsPrefix acc w := by
  intro fuel
  induction fuel with
  | zero =>
    intro ctx acc r w r2 h
    exact absurd h (by simp [sampleLoop])
  | succ fuel ih =>
    intro ctx acc r w r2 h
    simp only [sampleLoop] at h
    split at h
    · exact absurd h (by simp)
    next d hb =>
      split at h
      · simp only [Except.ok.injEq, Prod.mk.injEq] at h
        obtain ⟨rfl, rfl⟩ := h
        exact List.prefix_refl _
      · exact List.IsPrefix.trans (List.prefix_append acc _) (ih _ _ _ _ _ h)

/-- C5: for every required prefix and every model, every word returned by
`GenerateOne` with that prefix begins with exactly that literal prefix,
character for character, whether or not the prefix characters occur in the
training alphabet (the model is arbitrary and unconstrained here). -/
theorem required_start_kept :
    ∀ m pre r w r2,
      GenerateOne m pre r = Except.ok (w, r2) →
      List.IsPrefix (pre.map Symb.char) w := by
  intro m pre r w r2 h
  exact sampleLoop_keeps_acc m.table (m.order - 1) maxWordLen _ _ r w r2 h

/-- Witness for C5: generating with required prefix "a" against the demo
model yields a word starting with `a`. -/
theorem required_start_kept_witness :
    GenerateOne demoModel ['a'] demoRng =
      Except.ok ([Symb.char 'a', Symb.char 'b'], { stream := demoStream, pos := 2 }) ∧
    List.IsPrefix ((['a'] : List Char).map Symb.char) [Symb.char 'a', Symb.char 'b'] :=
  ⟨rfl, required_start_kept demoModel ['a'] demoRng [Symb.char 'a', Symb.char 'b']
    { stream := demoStream, pos := 2 } rfl⟩

/-- The table invariant behind C6: no Distribution in the table records
the START boundary symbol as a next symbol. -/
def noStart (tbl : CtxTable) : Prop :=
  ∀ e ∈ tbl, ∀ q ∈ e.2, q.1 ≠ Symb.start

/-- Incrementing a non-START symbol preserves the invariant of one
Distribution. -/
theorem incr_noStart : ∀ (d : Freqs) (s : Symb),
    (∀ q ∈ d, q.1 ≠ Symb.start) → s ≠ Symb.start →
    ∀ q ∈ incr d s, q.1 ≠ Symb.start
  | [], s, _, hs => by
    intro q hq
    simp only [incr, List.mem_singleton] at hq
    subst hq
    exact hs
  | (t, n) :: rest, s, hd, hs => by
    intro q hq
    simp only [incr] at hq
    split_ifs at hq with ht
    · rcases List.mem_cons.mp hq with rfl | hq2
      · exact hd (t, n) (List.mem_cons_self _ _)
      · exact hd q (List.mem_cons_of_mem _ hq2)
    · rcases List.mem_cons.mp hq with rfl | hq2
      · exact hd (t, n) (List.mem_cons_self _ _)
      · exact incr_noStart rest s (fun q hq => hd q (List.mem_cons_of_mem _ hq)) hs q hq2

/-- Recording a non-START observation preserves the table invariant. -/
theorem bump_noStart : ∀ (tbl : CtxTable) (ctx : List Symb) (s : Symb),
    noStart tbl → s ≠ Symb.start → noStart (bump tbl ctx s)
  | [], ctx, s, _, hs => by
    intro e he q hq
    simp only [bump, List.mem_singleton] at he
    subst he
    simp only [List.mem_singleton] at hq
    subst hq
    exact hs
  | (key, d) :: rest, ctx, s, ht, hs => by
    intro e he q hq
    simp only [bump] at he
    split_ifs at he with hk
    · rcases List.mem_cons.mp he with rfl | he2
      · exact incr_noStart d s (fun q hq => ht (key, d) (List.mem_cons_self _ _) q hq) hs q hq
      · exact ht e (List.mem_cons_of_mem _ he2) q hq
    · rcases List.mem_cons.mp he with rfl | he2
      · exact ht (key, d) (List.mem_cons_self _ _) q hq
      · exact bump_noStart rest ctx s (fun e he => ht e (List.mem_cons_of_mem _ he)) hs e he2 q hq

/-- Training on a word records only corpus characters and END, preserving
the table invariant. -/
theorem trainWord_noStart (k : Nat) : ∀ (w : List Char) (tbl : CtxTable) (ctx : List Symb),
    noStart tbl → noStart (trainWord k tbl ctx w)
  | [], tbl, ctx, ht => bump_noStart tbl ctx Symb.stop ht (by simp)
  | c :: cs, tbl, ctx, ht =>
    trainWord_noStart k cs _ _ (bump_noStart tbl ctx (Symb.char c) ht (by simp))

/-- The whole training fold preserves the table invariant. -/
theorem buildFold_noStart : ∀ (corpus : List (List Char)) (k : Nat) (tbl : CtxTable),
    noStart tbl →
    noStart (corpus.foldl
      (fun tbl w => trainWord k tbl (List.replicate k Symb.start) w) tbl)
  | [], _, _, ht => ht
  | w :: ws, k, tbl, ht => buildFold_noStart ws k _ (trainWord_noStart k w tbl _ ht)

/-- A Distribution found in an invariant table satisfies the invariant. -/
theorem findDist_noStart : ∀ (tbl : CtxTable) (ctx : List Symb) (d : Freqs),
    noStart tbl → findDist tbl ctx = some d → ∀ q ∈ d, q.1 ≠ Symb.start
  | [], _, _, _, h => by simp [findDist] at h
  | (key, d0) :: rest, ctx, d, ht, h => by
    simp only [findDist] at h
    split_ifs at h with hk
    · cases h
      exact ht (key, d0) (List.mem_cons_self _ _)
    · exact findDist_noStart rest ctx d (fun e he => ht e (List.mem_cons_of_mem _ he)) h

/-- Backoff resolution returns a Distribution of the table, so it
satisfies the invariant. -/
theorem backoffDist_noStart : ∀ (ctx : List Symb) (tbl : CtxTable) (d : Freqs),
    noStart tbl → backoffDist tbl ctx = some d → ∀ q ∈ d, q.1 ≠ Symb.start
  | [], tbl, d, ht, h => findDist_noStart tbl [] d ht h
  | s :: rest, tbl, d, ht, h => by
    simp only [backoffDist] at h
    split at h
    next d0 hf =>
      cases h
      exact findDist_noStart tbl (s :: rest) _ ht hf
    next hf => exact backoffDist_noStart rest tbl d ht h

/-- A weighted draw from a Distribution that never records START cannot
return START (the empty-table default is END). -/
theorem pick_ne_start : ∀ (d : Freqs) (u : Nat),
    (∀ q ∈ d, q.1 ≠ Symb.start) → pick d u ≠ Symb.start
  | [], _, _ => by simp [pick]
  | [(s, n)], _, hd => by
    simpa [pick] using hd (s, n) (List.mem_singleton_self _)
  | (s, n) :: e :: rest, u, hd => by
    simp only [pick]
    split_ifs with hu
    · exact hd (s, n) (List.mem_cons_self _ _)
    · exact pick_ne_start (e :: rest) (u - n) (fun q hq => hd q (List.mem_cons_of_mem _ hq))

/-- The sampling loop over an invariant table never puts a boundary symbol
into the output: END terminates without being appended, and START is never
drawn. -/
theorem sampleLoop_no_boundary (tbl : CtxTable) (k : Nat) (ht : noStart tbl) :
    ∀ (fuel : Nat) (ctx acc : List Symb) (r : Rng) (w : List Symb) (r2 : Rng),
      (∀ s ∈ acc, s ≠ Symb.start ∧ s ≠ Symb.stop) →
      sampleLoop tbl k fuel ctx acc r = Except.ok (w, r2) →
      ∀ s ∈ w, s ≠ Symb.start ∧ s ≠ Symb.stop := by
  intro fuel
  induction fuel with
  | zero =>
    intro ctx acc r w r2 _ h
    exact absurd h (by simp [sampleLoop])
  | succ fuel ih =>
    intro ctx acc r w r2 hacc h
    simp only [sampleLoop] at h
    split at h
    · exact absurd h (by simp)
    next d hb =>
      split at h
      next hs =>
        simp only [Except.ok.injEq, Prod.mk.injEq] at h
        obtain ⟨rfl, rfl⟩ := h
        exact hacc
      next hs =>
        refine ih _ _ _ _ _ ?_ h
        intro s hsm
        rcases List.mem_append.mp hsm with hs1 | hs2
        · exact hacc s hs1
        · simp only [List.mem_singleton] at hs2
          subst hs2
          exact ⟨pick_ne_start d _ (backoffDist_noStart ctx tbl d ht hb), hs⟩

/-- C6: for every corpus and order accepted by `BuildModel`, no word
returned by `GenerateOne` against the built model contains a boundary
symbol (neither START nor END). -/
theorem no_boundary_in_output :
    ∀ corpus order m pre r w r2,
      BuildModel corpus order = Except.ok m →
      GenerateOne m pre r = Except.ok (w, r2) →
      ∀ s ∈ w, s ≠ Symb.start ∧ s ≠ Symb.stop := by
  intro corpus order m pre r w r2 hb hg
  have hm : noStart m.table := by
    unfold BuildModel at hb
    split_ifs at hb
    simp only [Except.ok.injEq] at hb
    subst hb
    exact buildFold_noStart corpus _ [] (by intro e he; simp at he)
  refine sampleLoop_no_boundary m.table (m.order - 1) hm maxWordLen _ _ r w r2 ?_ hg
  intro s hs
  simp only [List.mem_map] at hs
  obtain ⟨c, _, rfl⟩ := hs
  exact ⟨by simp, by simp⟩

/-- Witness for C6: the model built from the corpus `["ab"]` with order 2
generates the word `ab`, which contains no boundary symbol. -/
theorem no_boundary_in_output_witness :
    BuildModel [['a', 'b']] 2 = Except.ok demoModel ∧
    GenerateOne demoModel [] demoRng =
      Except.ok ([Symb.char 'a', Symb.char 'b'], { stream := demoStream, pos := 3 }) ∧
    ∀ s ∈ [Symb.char 'a', Symb.char 'b'], s ≠ Symb.start ∧ s ≠ Symb.stop :=
  ⟨rfl, rfl,
    no_boundary_in_output [['a', 'b']] 2 demoModel [] demoRng
      [Symb.char 'a', Symb.char 'b'] { stream := demoStream, pos := 3 } rfl rfl⟩
